import Mathlib

/-!
Verification of the subnet inventory program (`subnet_inventory.py`).

The development shallowly embeds the program:

* The persisted inventory file is `Option (List (List Char))`: `none` means the
  file does not exist (so `open(INVENTORY_PATH)` raises `FileNotFoundError`),
  `some lines` gives the list returned by `readlines()`, each line a `List Char`
  including its trailing newline.
* Python exceptions that escape a function are modelled with `Except PyErr`;
  a caught exception (the `try/except FileNotFoundError` blocks) never shows up
  in the result.
* `ipaddress.ip_network(text, strict=False)` is embedded for the IPv4
  dotted-quad/decimal-prefix string forms the program uses; the parsed value is
  a `Network` (base address integer plus prefix length).  Machine integers are
  `Nat`; the base address is masked by dropping the low `32 - prefixlen` bits,
  as `strict=False` does.
* `input()`-driven confirmation inside `add_subnet` is a `Bool` parameter
  (`true` = the user eventually answers `Y`, `false` = `n`); the re-prompt loop
  has no other observable effect.
* Python string values are `List Char`.  `str.rsplit(' ', 1)`, `str.strip()` and
  `str.split(sep)` are embedded directly below.
-/

deriving instance DecidableEq for Except

/-- Python exceptions the embedded code can raise.  `ValueError` covers
`AddressValueError`/`NetmaskValueError`, its `ipaddress` subclasses. -/
inductive PyErr where
  | fileNotFoundError
  | indexError
  | valueError
deriving DecidableEq, Repr

/-- An `ipaddress.IPv4Network` value: the integer value of `network_address`
and the `prefixlen`.  Values built by the embedded parser always have
`prefixlen ≤ 32` and a base address with the host bits cleared. -/
structure Network where
  network_address : Nat
  prefixlen : Nat
deriving DecidableEq, Repr

/-- Value `int(net.hostmask)`: the low `32 - prefixlen` bits set. -/
def hostmask (n : Network) : Nat := 2 ^ (32 - n.prefixlen) - 1

/-- Value `int(net.broadcast_address)`: CPython computes
`int(self.network_address) | int(self.hostmask)`. -/
def broadcast_address (n : Network) : Nat := n.network_address ||| hostmask n

/-- Address membership `addr in net`: the CPython method `IPv4Network.__contains__`
checks `int(net.network_address) <= addr <= int(net.broadcast_address)`. -/
def addrInNetwork (net : Network) (a : Nat) : Bool :=
  decide (net.network_address ≤ a ∧ a ≤ broadcast_address net)

/-- The CPython method `IPv4Network.overlaps(other)`:
`self.network_address in other or self.broadcast_address in other or
 other.network_address in self or other.broadcast_address in self`. -/
def overlaps (a other : Network) : Bool :=
  addrInNetwork other a.network_address || addrInNetwork other (broadcast_address a) ||
    addrInNetwork a other.network_address || addrInNetwork a (broadcast_address other)

/-- Function `subnets_conflict(cidr1, cidr2)` (subnet_inventory.py:132-147):
`return cidr1.overlaps(cidr2)`. -/
def subnets_conflict (cidr1 cidr2 : Network) : Bool := overlaps cidr1 cidr2

/-- Characters stripped by the Python method `str.strip()` (ASCII whitespace). -/
def isPySpace (c : Char) : Bool :=
  c = ' ' || c = '\t' || c = '\n' || c = '\r' || c = '\x0b' || c = '\x0c'

/-- ASCII decimal digit, as tested by `str.isdigit()` on the inputs the
program handles (the embedding assumes ASCII text throughout). -/
def isDigit (c : Char) : Bool := decide ('0' ≤ c) && decide (c ≤ '9')

/-- Value of an all-digit string, as computed by the Python call `int(s)`. -/
def digitsToNat (l : List Char) : Nat :=
  l.foldl (fun acc c => 10 * acc + (c.toNat - 48)) 0

/-- Python `line.rsplit(' ', 1)`: split at the last space, giving a one-element list
when the line contains no space and a two-element list otherwise. -/
def pyRsplit1 (l : List Char) : List (List Char) :=
  match l.reverse.dropWhile (fun c => !decide (c = ' ')) with
  | [] => [l]
  | _ :: revRest =>
      [revRest.reverse, (l.reverse.takeWhile (fun c => !decide (c = ' '))).reverse]

/-- Indexing `[0]` into an `rsplit` result; `rsplit` always returns at least
one element, so this cannot raise. -/
def pyGet0 (xs : List (List Char)) : List Char := xs.headD []

/-- Indexing `[1]` into an `rsplit` result; raises `IndexError` when the split
produced a single element (a line with no space). -/
def pyGet1 (xs : List (List Char)) : Except PyErr (List Char) :=
  match xs with
  | _ :: y :: _ => .ok y
  | _ => .error .indexError

/-- Model of Python `str.strip()`: remove whitespace from both ends. -/
def pyStrip (l : List Char) : List Char :=
  (((l.dropWhile isPySpace).reverse).dropWhile isPySpace).reverse

/-- Model of Python `str.split(sep)` for a one-character separator. -/
def splitOnChar (sep : Char) : List Char → List (List Char)
  | [] => [[]]
  | c :: rest =>
      match splitOnChar sep rest with
      | [] => [[c]]
      | h :: t => if c = sep then [] :: h :: t else (c :: h) :: t

/-- CPython `IPv4Address._parse_octet`: non-empty, decimal digits only, at
most three characters, no leading zero (unless the octet is exactly `0`),
value at most 255.  Every failure raises a subclass of `ValueError`. -/
def parse_octet (l : List Char) : Except PyErr Nat :=
  if l = [] then .error .valueError
  else if !l.all isDigit then .error .valueError
  else if l.length > 3 then .error .valueError
  else if l.length > 1 && decide (l.headD '0' = '0') then .error .valueError
  else if digitsToNat l > 255 then .error .valueError
  else .ok (digitsToNat l)

/-- CPython `IPv4Address._ip_int_from_string`: exactly four dot-separated
octets, combined big-endian. -/
def parse_ipv4 (l : List Char) : Except PyErr Nat :=
  match splitOnChar '.' l with
  | [o1, o2, o3, o4] => do
      let v1 ← parse_octet o1
      let v2 ← parse_octet o2
      let v3 ← parse_octet o3
      let v4 ← parse_octet o4
      .ok (((v1 * 256 + v2) * 256 + v3) * 256 + v4)
  | _ => .error .valueError

/-- CPython `_prefix_from_prefix_string`: digits only, value between 0 and 32.
(CPython additionally accepts dotted netmask/hostmask strings after the slash;
no input the program or the claims exercise has that form, so that fallback is
not modelled and such strings report `ValueError` here.) -/
def parsePrefixLen (l : List Char) : Except PyErr Nat :=
  if l = [] then .error .valueError
  else if !l.all isDigit then .error .valueError
  else if digitsToNat l ≤ 32 then .ok (digitsToNat l)
  else .error .valueError

/-- Build the network from an address and prefix as `strict=False` does: mask
the host bits away (`addr & mask`, i.e. clear the low `32 - p` bits). -/
def mkNet (addr p : Nat) : Network :=
  ⟨addr - addr % 2 ^ (32 - p), p⟩

/-- Function `ipaddress.ip_network(text, strict=False)` on the string forms this
program uses: split on `/` (at most one permitted; a missing prefix defaults
to 32), parse the dotted-quad address and the decimal prefix, and mask the
host bits.  IPv6 text fails the IPv4 octet parse and reports `ValueError`,
which matches the factory exhausting its candidate classes. -/
def ip_network (s : List Char) : Except PyErr Network :=
  match splitOnChar '/' s with
  | [addr] => do
      let ip ← parse_ipv4 addr
      .ok (mkNet ip 32)
  | [addr, pfx] => do
      let ip ← parse_ipv4 addr
      let p ← parsePrefixLen pfx
      .ok (mkNet ip p)
  | _ => .error .valueError

/-- The `Subnet` class (subnet_inventory.py:25-32): a name and the CIDR text
exactly as supplied at add time. -/
structure Subnet where
  name : List Char
  cidr_string : List Char
deriving DecidableEq, Repr

/-- The module-level reserved ranges constant (subnet_inventory.py:22):
`reserved_subnets = ["192.168.14.128/25"]`. -/
def reserved_subnets : List (List Char) := ["192.168.14.128/25".data]

/-- The persisted line `add_subnet` writes (line 69):
`"{name} {address}\n".format(...)`. -/
def encodeLine (r : Subnet) : List Char :=
  r.name ++ ' ' :: (r.cidr_string ++ ['\n'])

/-- Loop body of `check_subnet_by_address` (lines 98-102): compare
`line.rsplit(' ', 1)[1].strip()` with the query, returning at the first hit.
The `[1]` index raises `IndexError` on a line with no space. -/
def csbaLoop (cidr_string : List Char) : List (List Char) → Except PyErr Bool
  | [] => .ok false
  | line :: rest => do
      let x ← pyGet1 (pyRsplit1 line)
      if pyStrip x = cidr_string then .ok true else csbaLoop cidr_string rest

/-- Function `check_subnet_by_address` (lines 78-102): a missing inventory file is
caught (`except FileNotFoundError: return False`); otherwise scan the lines. -/
def check_subnet_by_address (cidr_string : List Char)
    (file : Option (List (List Char))) : Except PyErr Bool :=
  match file with
  | none => .ok false
  | some inventory => csbaLoop cidr_string inventory

/-- Function `check_subnet_by_name` (lines 105-129): a missing inventory file is caught
(`except FileNotFoundError: return False`); otherwise compare
`line.rsplit(' ', 1)[0]` with the query.  Nothing in the loop can raise, so
the result is a plain `Bool`. -/
def check_subnet_by_name (name_to_check : List Char)
    (file : Option (List (List Char))) : Bool :=
  match file with
  | none => false
  | some inventory =>
      inventory.any fun line => decide (pyGet0 (pyRsplit1 line) = name_to_check)

/-- Loop body of `check_inventory_for_conflicts` (lines 165-172): for each
line take `rsplit(' ', 1)[1].strip()`, parse it with
`ipaddress.ip_network(..., strict=False)`, and collect a `Subnet` for every
stored network that conflicts, in store order. -/
def conflictsLoop (cidr : Network) : List (List Char) → Except PyErr (List Subnet)
  | [] => .ok []
  | line :: rest => do
      let x ← pyGet1 (pyRsplit1 line)
      let cidr_string_to_compare := pyStrip x
      let n ← ip_network cidr_string_to_compare
      let tail ← conflictsLoop cidr rest
      if subnets_conflict cidr n then
        .ok (⟨pyGet0 (pyRsplit1 line), cidr_string_to_compare⟩ :: tail)
      else
        .ok tail

/-- Function `check_inventory_for_conflicts` (lines 150-172): the `open` is not guarded,
so a missing inventory file raises `FileNotFoundError`. -/
def check_inventory_for_conflicts (cidr : Network)
    (file : Option (List (List Char))) : Except PyErr (List Subnet) :=
  match file with
  | none => .error .fileNotFoundError
  | some inventory => conflictsLoop cidr inventory

/-- Function `names_conflict` (lines 175-196): the `open` is not guarded, so a missing
inventory file raises `FileNotFoundError`; otherwise compare `chosen_name`
with `line.rsplit(' ', 1)[0]`. -/
def names_conflict (chosen_name : List Char)
    (file : Option (List (List Char))) : Except PyErr Bool :=
  match file with
  | none => .error .fileNotFoundError
  | some inventory =>
      .ok (inventory.any fun line => decide (chosen_name = pyGet0 (pyRsplit1 line)))

/-- Loop body of `display_inventory` (lines 235-238): the printed
(name, address) pairs, `line.rsplit(' ', 1)` with the address stripped. -/
def displayLoop : List (List Char) → Except PyErr (List (List Char × List Char))
  | [] => .ok []
  | line :: rest => do
      let x ← pyGet1 (pyRsplit1 line)
      let tail ← displayLoop rest
      .ok ((pyGet0 (pyRsplit1 line), pyStrip x) :: tail)

/-- Function `display_inventory` (lines 219-238): the `open` is not guarded, so a
missing inventory file raises `FileNotFoundError`. -/
def display_inventory (file : Option (List (List Char))) :
    Except PyErr (List (List Char × List Char)) :=
  match file with
  | none => .error .fileNotFoundError
  | some inventory => displayLoop inventory

/-- Function `delete_subnet` (lines 241-262): `open(..., "r+")` raises
`FileNotFoundError` when the file is missing; otherwise the file is rewritten
with exactly the lines whose `rsplit(' ', 1)[0]` differs from `delete_name`,
in their original order (`f.seek(0)` / conditional `f.write` / `f.truncate`).
The result is the new file contents. -/
def delete_subnet (delete_name : List Char)
    (file : Option (List (List Char))) : Except PyErr (List (List Char)) :=
  match file with
  | none => .error .fileNotFoundError
  | some inventory =>
      .ok (inventory.filter fun line => !decide (pyGet0 (pyRsplit1 line) = delete_name))

/-- The reserved loop at the top of `add_subnet` (lines 48-52): scan
`reserved_subnets` in order, parsing each entry, and stop at the first
conflict.  (The source re-parses the candidate inside the loop; parsing is
pure, so the candidate is parsed once, up front, in `add_subnet` below.) -/
def reservedCheck (cand : Network) : List (List Char) → Except PyErr Bool
  | [] => .ok false
  | reserved :: rest => do
      let rn ← ip_network reserved
      if subnets_conflict cand rn then .ok true else reservedCheck cand rest

/-- Which of the three exit paths of `add_subnet` ran: the reserved-range
rejection print, the user declining at the conflict prompt, or the append. -/
inductive AddOutcome where
  | reservedConflict
  | declined
  | added
deriving DecidableEq, Repr

/-- Function `add_subnet` (lines 35-75).  Order of effects, as in the source: parse the
candidate (an invalid string raises `ValueError` here, before anything else);
refuse if it conflicts with a reserved range; look for store conflicts (this
step raises `FileNotFoundError` when the file is absent); if conflicts were
found consult the confirmation prompt; finally append one line (`open` mode
`"a+"` creates the file when missing).  Returns the file contents after the
call together with the exit path taken. -/
def add_subnet (name cidr_string : List Char) (confirmYes : Bool)
    (file : Option (List (List Char))) :
    Except PyErr (Option (List (List Char)) × AddOutcome) := do
  let cand ← ip_network cidr_string
  let rsv ← reservedCheck cand reserved_subnets
  if rsv then
    .ok (file, .reservedConflict)
  else do
    let conflicting ← check_inventory_for_conflicts cand file
    if conflicting ≠ [] ∧ confirmYes = false then
      .ok (file, .declined)
    else
      .ok (some (file.getD [] ++ [encodeLine ⟨name, cidr_string⟩]), .added)

/-- Consume exactly `n` digit characters, returning the remainder. -/
def afterDigits : Nat → List Char → Option (List Char)
  | 0, l => some l
  | _ + 1, [] => none
  | n + 1, c :: rest => if isDigit c then afterDigits n rest else none

/-- One bounded `\d` regex atom, greedy with backtracking: the repeat counts
are tried longest first and the continuation `k` runs the rest of the
pattern on the remainder. -/
def tryCounts (counts : List Nat) (l : List Char) (k : List Char → Bool) : Bool :=
  counts.any fun n => (afterDigits n l).elim false k

/-- A literal-character regex atom followed by the continuation. -/
def litThen (c : Char) (l : List Char) (k : List Char → Bool) : Bool :=
  match l with
  | [] => false
  | x :: r => decide (x = c) && k r

/-- The regex `\d{1,3}\.\d{1,3}\.\d{1,3}\.\d{1,3}/\d{1,2}` matched at the
start of `l`; a match may consume only part of `l`. -/
def matchShapeAt (l : List Char) : Bool :=
  tryCounts [3, 2, 1] l fun r =>
  litThen '.' r fun r =>
  tryCounts [3, 2, 1] r fun r =>
  litThen '.' r fun r =>
  tryCounts [3, 2, 1] r fun r =>
  litThen '.' r fun r =>
  tryCounts [3, 2, 1] r fun r =>
  litThen '/' r fun r =>
  tryCounts [2, 1] r fun _ => true

/-- Function `check_address_format` (lines 199-216):
`re.search(cidr_pattern, cidr_string)` with the pattern above — `re.search`
tries the pattern at every start position of the string. -/
def check_address_format (cidr_string : List Char) : Bool :=
  cidr_string.tails.any matchShapeAt

/-- From the words of claim C7: a group of one to three decimal digits
(one octet group of the documented pattern). -/
def octetGroup (a : List Char) : Prop :=
  a.all isDigit = true ∧ 1 ≤ a.length ∧ a.length ≤ 3

/-- From the words of claim C7: the one-or-two-digit group after the
slash. -/
def prefixGroup (e : List Char) : Prop :=
  e.all isDigit = true ∧ 1 ≤ e.length ∧ e.length ≤ 2

/-- From the words of claim C7: the string consists, in its entirety, of
four dot-separated octet groups, a slash, and the trailing digit group. -/
def shapeMatch (m : List Char) : Prop :=
  ∃ a b c d e, octetGroup a ∧ octetGroup b ∧ octetGroup c ∧ octetGroup d ∧
    prefixGroup e ∧
    m = a ++ '.' :: (b ++ '.' :: (c ++ '.' :: (d ++ '/' :: e)))

/-- Deterministic one-group step used to decide `shapeMatch`: because `.` and
`/` are not digits, each digit group of a whole-string match is forced to be
a maximal digit run. -/
def chompGroup (maxLen : Nat) (sep : Char) (l : List Char) : Option (List Char) :=
  if 1 ≤ (l.takeWhile isDigit).length ∧ (l.takeWhile isDigit).length ≤ maxLen ∧
      l.dropWhile isDigit ≠ [] ∧ (l.dropWhile isDigit).headD sep = sep then
    some (l.dropWhile isDigit).tail
  else none

/-- Executable whole-string version of `shapeMatch` (proved equivalent
below). -/
def fullShape (m : List Char) : Bool :=
  match (((chompGroup 3 '.' m).bind (chompGroup 3 '.')).bind (chompGroup 3 '.')).bind
      (chompGroup 3 '/') with
  | some e => decide (e.all isDigit = true ∧ 1 ≤ e.length ∧ e.length ≤ 2)
  | none => false

/-- A well-formed store record: the CIDR text contains no whitespace
characters (true of any CIDR string the program accepts). -/
def goodRecs (recs : List Subnet) : Prop :=
  ∀ r ∈ recs, ∀ c ∈ r.cidr_string, isPySpace c = false

instance goodRecsDecidable (recs : List Subnet) : Decidable (goodRecs recs) :=
  inferInstanceAs (Decidable (∀ r ∈ recs, ∀ c ∈ r.cidr_string, isPySpace c = false))

/-- Whether an embedded computation finished without raising. -/
def exceptOk {α : Type} : Except PyErr α → Bool
  | .ok _ => true
  | .error _ => false

/-- Whether a stored record conflicts with the candidate, exactly as the loop
of `check_inventory_for_conflicts` decides it: parse the stored CIDR text and
test overlap (a record whose text does not parse never reaches the test — the
loop raises instead, which the conflict theorems exclude by hypothesis). -/
def storedConflict (cand : Network) (r : Subnet) : Bool :=
  match ip_network r.cidr_string with
  | .ok n => subnets_conflict cand n
  | .error _ => false

/-- The base address never exceeds the broadcast address. -/
theorem le_broadcast (n : Network) : n.network_address ≤ broadcast_address n :=
  Nat.le_of_testBit fun i h => by
    simp only [broadcast_address, Nat.testBit_or, h, Bool.true_or]

/-- The membership disjunction of `overlaps` is exactly interval intersection. -/
theorem overlaps_iff (a b : Network) :
    overlaps a b = true ↔
      a.network_address ≤ broadcast_address b ∧ b.network_address ≤ broadcast_address a := by
  have ha := le_broadcast a
  have hb := le_broadcast b
  simp only [overlaps, addrInNetwork, Bool.or_eq_true, decide_eq_true_eq]
  omega

/-- C1: for every pair of networks `a` and `b`, `subnets_conflict a b` is true
iff the inclusive address ranges `[a.first, a.last]` and `[b.first, b.last]`
intersect (`a.first ≤ b.last ∧ b.first ≤ a.last`, where first = the network
address and last = the broadcast address), covering equality, containment in
either direction and partial overlap; and the function is symmetric. -/
theorem c1_subnets_conflict_iff_ranges_intersect (a b : Network) :
    (subnets_conflict a b = true ↔
      a.network_address ≤ broadcast_address b ∧ b.network_address ≤ broadcast_address a) ∧
    subnets_conflict a b = subnets_conflict b a := by
  refine ⟨overlaps_iff a b, ?_⟩
  rw [Bool.eq_iff_iff]
  simp only [subnets_conflict, overlaps_iff]
  exact ⟨fun h => ⟨h.2, h.1⟩, fun h => ⟨h.2, h.1⟩⟩


/-- Lemma: `takeWhile` stops exactly at the first failing element. -/
theorem takeWhile_append_not {p : Char → Bool} {a l2 : List Char} {c : Char}
    (h : ∀ x ∈ a, p x = true) (hc : p c = false) :
    (a ++ c :: l2).takeWhile p = a := by
  induction a with
  | nil => simp [List.takeWhile_cons, hc]
  | cons y ys ih =>
      have hy := h y (by simp)
      simp [List.takeWhile_cons, hy, ih fun x hx => h x (by simp [hx])]

/-- Lemma: `dropWhile` drops exactly up to the first failing element. -/
theorem dropWhile_append_not {p : Char → Bool} {a l2 : List Char} {c : Char}
    (h : ∀ x ∈ a, p x = true) (hc : p c = false) :
    (a ++ c :: l2).dropWhile p = c :: l2 := by
  induction a with
  | nil => simp [List.dropWhile_cons, hc]
  | cons y ys ih =>
      have hy := h y (by simp)
      simp [List.dropWhile_cons, hy, ih fun x hx => h x (by simp [hx])]

/-- Lemma: `dropWhile` is the identity when no element satisfies the predicate. -/
theorem dropWhile_all_neg {p : Char → Bool} {l : List Char}
    (h : ∀ x ∈ l, p x = false) : l.dropWhile p = l := by
  cases l with
  | nil => rfl
  | cons y ys => simp [List.dropWhile_cons, h y (by simp)]

/-- Whitespace-free characters are in particular not the space character. -/
theorem not_space_of_not_pySpace {x : Char} (h : isPySpace x = false) :
    (!decide (x = ' ')) = true := by
  by_cases hx : x = ' '
  · rw [hx] at h
    exact absurd h (by decide)
  · simp [hx]

/-- A persisted line splits at the separator space when the CIDR text is
whitespace-free. -/
theorem pyRsplit1_encodeLine (r : Subnet)
    (h : ∀ c ∈ r.cidr_string, isPySpace c = false) :
    pyRsplit1 (encodeLine r) = [r.name, r.cidr_string ++ ['\n']] := by
  have hq : ∀ x ∈ ('\n' :: r.cidr_string.reverse), (!decide (x = ' ')) = true := by
    intro x hx
    rcases List.mem_cons.mp hx with rfl | hx
    · rfl
    · exact not_space_of_not_pySpace (h x (List.mem_reverse.mp hx))
  have hrev : (encodeLine r).reverse =
      ('\n' :: r.cidr_string.reverse) ++ ' ' :: r.name.reverse := by
    simp [encodeLine]
  rw [pyRsplit1, hrev, dropWhile_append_not hq (by rfl), takeWhile_append_not hq (by rfl)]
  simp

/-- Stripping the trailing newline recovers a whitespace-free CIDR text. -/
theorem pyStrip_append_newline {l : List Char} (h : ∀ c ∈ l, isPySpace c = false) :
    pyStrip (l ++ ['\n']) = l := by
  cases l with
  | nil => rfl
  | cons y ys =>
      have hy : isPySpace y = false := h y (by simp)
      have hall : ∀ x ∈ (ys.reverse ++ [y]), isPySpace x = false := by
        intro x hx
        rcases List.mem_append.mp hx with hx | hx
        · exact h x (by simp [List.mem_reverse.mp hx])
        · simp only [List.mem_singleton] at hx
          rw [hx]; exact hy
      rw [pyStrip, List.cons_append, List.dropWhile_cons, hy]
      simp only [Bool.false_eq_true, if_false]
      have hrev : (y :: (ys ++ ['\n'])).reverse = '\n' :: (ys.reverse ++ [y]) := by
        simp
      rw [hrev, List.dropWhile_cons]
      rw [show isPySpace '\n' = true from rfl]
      simp only [if_true]
      rw [dropWhile_all_neg hall]
      simp

/-- Index `[0]` of a split well-formed line is the record name. -/
theorem pyGet0_encodeLine (r : Subnet)
    (h : ∀ c ∈ r.cidr_string, isPySpace c = false) :
    pyGet0 (pyRsplit1 (encodeLine r)) = r.name := by
  rw [pyRsplit1_encodeLine r h]; rfl

/-- Index `[1]` of a split well-formed line, stripped, is the stored CIDR text. -/
theorem pyGet1_encodeLine (r : Subnet)
    (h : ∀ c ∈ r.cidr_string, isPySpace c = false) :
    pyGet1 (pyRsplit1 (encodeLine r)) = .ok (r.cidr_string ++ ['\n']) := by
  rw [pyRsplit1_encodeLine r h]; rfl

/-- Bind on an `ok` value runs the continuation. -/
theorem pyBind_ok {α β : Type} (a : α) (f : α → Except PyErr β) :
    (Except.ok a : Except PyErr α) >>= f = f a := rfl

/-- Bind on a raised exception propagates it. -/
theorem pyBind_error {α β : Type} (e : PyErr) (f : α → Except PyErr β) :
    (Except.error e : Except PyErr α) >>= f = Except.error e := rfl

/-- The address-lookup loop over an encoded store compares the stored CIDR
texts with the query, in order. -/
theorem csbaLoop_encode (ct : List Char) (recs : List Subnet) (h : goodRecs recs) :
    csbaLoop ct (recs.map encodeLine) =
      .ok (recs.any fun r => decide (r.cidr_string = ct)) := by
  induction recs with
  | nil => rfl
  | cons r rest ih =>
      have hr : ∀ c ∈ r.cidr_string, isPySpace c = false := h r (by simp)
      have hrest : goodRecs rest := fun s hs => h s (by simp [hs])
      simp only [List.map_cons, csbaLoop, pyGet1_encodeLine r hr, pyBind_ok,
        pyStrip_append_newline hr, List.any_cons]
      by_cases hc : r.cidr_string = ct
      · simp [hc]
      · simp [hc, ih hrest]

/-- C6: for every query text and every store, `check_subnet_by_address`
returns true iff the original CIDR text of some stored record equals the query by
string equality (not range equality): two textually different spellings of
the same range are different here. -/
theorem c6_address_check_is_string_equality (ct : List Char) (recs : List Subnet)
    (h : goodRecs recs) :
    check_subnet_by_address ct (some (recs.map encodeLine)) =
      .ok (decide (∃ r ∈ recs, r.cidr_string = ct)) := by
  have hb : (recs.any fun r => decide (r.cidr_string = ct)) =
      decide (∃ r ∈ recs, r.cidr_string = ct) := by
    rw [Bool.eq_iff_iff]
    simp
  rw [check_subnet_by_address, csbaLoop_encode ct recs h, hb]

/-- C6 witness: the store holds `A 10.0.0.0/24`; the query `10.0.0.1/24`
denotes the same masked range but is a different string, and is not found. -/
theorem c6_witness :
    check_subnet_by_address ("10.0.0.1/24".data)
        (some ([⟨"A".data, "10.0.0.0/24".data⟩].map encodeLine)) =
      .ok (decide (∃ r ∈ [(⟨"A".data, "10.0.0.0/24".data⟩ : Subnet)],
        r.cidr_string = "10.0.0.1/24".data)) :=
  c6_address_check_is_string_equality _ _ (by decide)

/-- C10: whenever the inventory file exists, `check_subnet_by_name` and
`names_conflict` compute the same predicate (both compare
`line.rsplit(' ', 1)[0]` with the name by string equality); they differ only
when the file is absent, where the former returns false and the latter
raises `FileNotFoundError`. -/
theorem c10_name_lookups_agree (nm : List Char) (inventory : List (List Char)) :
    names_conflict nm (some inventory) =
      .ok (check_subnet_by_name nm (some inventory)) ∧
    check_subnet_by_name nm none = false ∧
    names_conflict nm none = .error .fileNotFoundError := by
  refine ⟨?_, rfl, rfl⟩
  simp only [names_conflict, check_subnet_by_name]
  have hfun : (fun line => decide (nm = pyGet0 (pyRsplit1 line))) =
      fun line => decide (pyGet0 (pyRsplit1 line) = nm) := by
    funext line
    exact decide_eq_decide.mpr eq_comm
  rw [hfun]

/-- Deleting from an encoded store filters out exactly the records with the
given name, keeping the order of the rest. -/
theorem delete_encode (nm : List Char) (recs : List Subnet) (h : goodRecs recs) :
    delete_subnet nm (some (recs.map encodeLine)) =
      .ok ((recs.filter fun r => !decide (r.name = nm)).map encodeLine) := by
  simp only [delete_subnet]
  congr 1
  induction recs with
  | nil => rfl
  | cons r rest ih =>
      have hr : ∀ c ∈ r.cidr_string, isPySpace c = false := h r (by simp)
      have hrest : goodRecs rest := fun s hs => h s (by simp [hs])
      simp only [List.map_cons, List.filter_cons, pyGet0_encodeLine r hr]
      by_cases hn : r.name = nm
      · simp [hn, ih hrest]
      · simp [hn, ih hrest]

/-- C5: for every name and every store, delete rewrites the store to exactly
the subsequence of records whose name differs from the given name (exact
string match), preserving relative order; with no match the store is
unchanged. -/
theorem c5_delete_filters_by_exact_name (nm : List Char) (recs : List Subnet)
    (h : goodRecs recs) :
    delete_subnet nm (some (recs.map encodeLine)) =
      .ok ((recs.filter fun r => !decide (r.name = nm)).map encodeLine) ∧
    ((∀ r ∈ recs, r.name ≠ nm) →
      delete_subnet nm (some (recs.map encodeLine)) = .ok (recs.map encodeLine)) := by
  have hmain := delete_encode nm recs h
  refine ⟨hmain, fun hnone => ?_⟩
  rw [hmain]
  have : (recs.filter fun r => !decide (r.name = nm)) = recs :=
    List.filter_eq_self.mpr fun a ha => by simp [hnone a ha]
  rw [this]

/-- C5 witness: deleting `A` from the two-record store keeps exactly `B`, and
deleting the absent name `C` keeps everything. -/
theorem c5_witness :
    (delete_subnet ("A".data)
        (some ([⟨"A".data, "10.0.0.0/24".data⟩, ⟨"B".data, "10.0.0.128/25".data⟩].map
          encodeLine)) =
      .ok (([⟨"A".data, "10.0.0.0/24".data⟩,
        (⟨"B".data, "10.0.0.128/25".data⟩ : Subnet)].filter
          fun r => !decide (r.name = "A".data)).map encodeLine)) ∧
    delete_subnet ("C".data)
        (some ([⟨"A".data, "10.0.0.0/24".data⟩, ⟨"B".data, "10.0.0.128/25".data⟩].map
          encodeLine)) =
      .ok ([⟨"A".data, "10.0.0.0/24".data⟩, ⟨"B".data, "10.0.0.128/25".data⟩].map
        encodeLine) :=
  ⟨(c5_delete_filters_by_exact_name ("A".data) _ (by decide)).1,
   (c5_delete_filters_by_exact_name ("C".data) _ (by decide)).2 (by decide)⟩

/-- The single reserved entry parses to the network `192.168.14.128/25`
(base address 3232239232). -/
theorem reserved_parses :
    ip_network ("192.168.14.128/25".data) = .ok ⟨3232239232, 25⟩ := by decide

/-- With the one-element reserved set, the reserved loop reports exactly
whether the candidate overlaps `192.168.14.128/25`. -/
theorem reservedCheck_eq (cand : Network) :
    reservedCheck cand reserved_subnets =
      .ok (subnets_conflict cand ⟨3232239232, 25⟩) := by
  have h1 : reservedCheck cand reserved_subnets =
      (ip_network ("192.168.14.128/25".data)) >>= fun rn =>
        if subnets_conflict cand rn = true then .ok true else reservedCheck cand [] := rfl
  rw [h1, reserved_parses, pyBind_ok]
  cases hc : subnets_conflict cand ⟨3232239232, 25⟩ <;> simp [hc, reservedCheck]

/-- C2 counterexample: the name-conflict check does not treat the absent
inventory file as an empty store — it raises `FileNotFoundError`, while on
the empty store it returns false. -/
theorem c2_counterexample_absence_not_empty_store :
    names_conflict ("a".data) none = .error .fileNotFoundError ∧
    names_conflict ("a".data) (some []) = .ok false ∧
    names_conflict ("a".data) none ≠ names_conflict ("a".data) (some []) :=
  ⟨rfl, rfl, by decide⟩

/-- C2 amended: absence of the persisted inventory file is treated as an
empty store only by `check_subnet_by_address` and `check_subnet_by_name`;
`names_conflict`, `check_inventory_for_conflicts`, `delete_subnet`,
`display_inventory` and `add_subnet` (through its unguarded conflict scan)
raise `FileNotFoundError` instead. -/
theorem c2_amended_absence_handling (nm ct q : List Char) (cand : Network)
    (hq : ip_network q = .ok cand)
    (hrsv : subnets_conflict cand ⟨3232239232, 25⟩ = false) :
    check_subnet_by_address ct none = .ok false ∧
    check_subnet_by_address ct none = check_subnet_by_address ct (some []) ∧
    check_subnet_by_name nm none = false ∧
    check_subnet_by_name nm none = check_subnet_by_name nm (some []) ∧
    names_conflict nm none = .error .fileNotFoundError ∧
    check_inventory_for_conflicts cand none = .error .fileNotFoundError ∧
    delete_subnet nm none = .error .fileNotFoundError ∧
    display_inventory none = .error .fileNotFoundError ∧
    add_subnet nm q false none = .error .fileNotFoundError := by
  refine ⟨rfl, ?_, rfl, ?_, rfl, rfl, rfl, rfl, ?_⟩
  · simp [check_subnet_by_address, csbaLoop]
  · simp [check_subnet_by_name]
  · simp [add_subnet, hq, pyBind_ok, reservedCheck_eq, hrsv,
      check_inventory_for_conflicts, pyBind_error]

/-- C2 witness: a concrete non-reserved candidate exercises the `add_subnet`
clause of the amended statement. -/
theorem c2_witness :
    add_subnet ("a".data) ("10.0.0.0/24".data) false none =
      .error .fileNotFoundError :=
  (c2_amended_absence_handling ("a".data) ("x".data) ("10.0.0.0/24".data)
    ⟨167772160, 24⟩ (by decide) (by decide)).2.2.2.2.2.2.2.2

/-- C3: a candidate overlapping `192.168.14.128/25` — the entire reserved
set — is refused through the reserved-conflict path regardless of the
confirmation answer, before the store is ever read (the statement holds for
every `file`, including the absent one, so no store-level conflict check has
run), and the store is returned unchanged. -/
theorem c3_reserved_overlap_refused (nm q : List Char) (confirm : Bool)
    (file : Option (List (List Char))) (cand : Network)
    (hq : ip_network q = .ok cand)
    (hov : subnets_conflict cand ⟨3232239232, 25⟩ = true) :
    reserved_subnets = ["192.168.14.128/25".data] ∧
    add_subnet nm q confirm file = .ok (file, .reservedConflict) := by
  refine ⟨rfl, ?_⟩
  simp [add_subnet, hq, pyBind_ok, reservedCheck_eq, hov]

/-- C3 witness: adding `192.168.14.200/32` (inside the reserved `/25`) is
refused with the store untouched, even with a confirming user and no store. -/
theorem c3_witness :
    reserved_subnets = ["192.168.14.128/25".data] ∧
    add_subnet ("X".data) ("192.168.14.200/32".data) true none =
      .ok (none, .reservedConflict) :=
  c3_reserved_overlap_refused ("X".data) ("192.168.14.200/32".data) true none
    ⟨3232239304, 32⟩ (by decide) (by decide)

/-- The conflict scan over an encoded store is a filter by parsed-range
overlap, preserving store order. -/
theorem conflicts_encode (cand : Network) (recs : List Subnet) (h : goodRecs recs)
    (hp : ∀ r ∈ recs, exceptOk (ip_network r.cidr_string) = true) :
    check_inventory_for_conflicts cand (some (recs.map encodeLine)) =
      .ok (recs.filter (storedConflict cand)) := by
  simp only [check_inventory_for_conflicts]
  induction recs with
  | nil => rfl
  | cons r rest ih =>
      have hr : ∀ c ∈ r.cidr_string, isPySpace c = false := h r (by simp)
      have hrest : goodRecs rest := fun s hs => h s (by simp [hs])
      have hprest : ∀ s ∈ rest, exceptOk (ip_network s.cidr_string) = true :=
        fun s hs => hp s (by simp [hs])
      cases hi : ip_network r.cidr_string with
      | error e =>
          have hbad := hp r (by simp)
          rw [hi] at hbad
          exact absurd hbad (by simp [exceptOk])
      | ok n =>
          have hsc : storedConflict cand r = subnets_conflict cand n := by
            simp only [storedConflict, hi]
          simp only [List.map_cons, conflictsLoop, pyGet1_encodeLine r hr, pyBind_ok,
            pyStrip_append_newline hr, hi, ih hrest hprest, List.filter_cons,
            pyGet0_encodeLine r hr, hsc]
          by_cases hcf : subnets_conflict cand n = true
          · simp [hcf]
          · simp [hcf]

/-- C4: for every candidate and every store, `check_inventory_for_conflicts`
returns exactly the stored records whose parsed networks overlap the
candidate, in store order; the empty list when nothing overlaps. -/
theorem c4_conflict_scan_is_overlap_filter (cand : Network) (recs : List Subnet)
    (h : goodRecs recs)
    (hp : ∀ r ∈ recs, exceptOk (ip_network r.cidr_string) = true) :
    check_inventory_for_conflicts cand (some (recs.map encodeLine)) =
      .ok (recs.filter (storedConflict cand)) :=
  conflicts_encode cand recs h hp

/-- C4 witness: store `A 10.0.0.0/24`, `B 10.0.0.128/25`, candidate
`10.0.0.0/25` (the filter keeps exactly `A`: the candidate is the lower half
of the `/24` and does not touch `10.0.0.128/25`). -/
theorem c4_witness :
    check_inventory_for_conflicts ⟨167772160, 25⟩
        (some ([⟨"A".data, "10.0.0.0/24".data⟩, ⟨"B".data, "10.0.0.128/25".data⟩].map
          encodeLine)) =
      .ok ([⟨"A".data, "10.0.0.0/24".data⟩,
        (⟨"B".data, "10.0.0.128/25".data⟩ : Subnet)].filter
          (storedConflict ⟨167772160, 25⟩)) :=
  c4_conflict_scan_is_overlap_filter ⟨167772160, 25⟩ _ (by decide) (by decide)

/-- C8: `999.0.0.0/24` passes the textual shape check and is rejected by the
network-parsing step, but the rejection escapes `add_subnet` as a raised
`ValueError` (the docstring of the function declares that it raises nothing), not as a
returned error value; the exception fires before any write, so the store is
untouched for every possible file state. -/
theorem c8_shape_passes_parse_raises (nm : List Char) (confirm : Bool)
    (file : Option (List (List Char))) :
    check_address_format ("999.0.0.0/24".data) = true ∧
    ip_network ("999.0.0.0/24".data) = .error .valueError ∧
    add_subnet nm ("999.0.0.0/24".data) confirm file = .error .valueError := by
  have hq : ip_network ("999.0.0.0/24".data) = .error .valueError := by decide
  refine ⟨by decide, hq, ?_⟩
  simp [add_subnet, hq, pyBind_error]

/-- C9: in a store where the name is fresh, `add` (with any confirmation
outcome the run can reach, given confirmation is granted) followed by
`delete` of the same name returns the store to exactly its pre-add
contents. -/
theorem c9_add_delete_roundtrip (nm q : List Char) (recs : List Subnet)
    (cand : Network) (h : goodRecs recs)
    (hp : ∀ r ∈ recs, exceptOk (ip_network r.cidr_string) = true)
    (hq : ip_network q = .ok cand)
    (hw : ∀ c ∈ q, isPySpace c = false)
    (hfresh : ∀ r ∈ recs, r.name ≠ nm) :
    ∃ (file2 : Option (List (List Char))) (outcome : AddOutcome),
      add_subnet nm q true (some (recs.map encodeLine)) = .ok (file2, outcome) ∧
      delete_subnet nm file2 = .ok (recs.map encodeLine) := by
  have hkeep : (recs.filter fun r => !decide (r.name = nm)) = recs :=
    List.filter_eq_self.mpr fun a ha => by simp [hfresh a ha]
  cases hc : subnets_conflict cand ⟨3232239232, 25⟩ with
  | true =>
      refine ⟨some (recs.map encodeLine), .reservedConflict, ?_, ?_⟩
      · simp [add_subnet, hq, pyBind_ok, reservedCheck_eq, hc]
      · rw [delete_encode nm recs h, hkeep]
  | false =>
      refine ⟨some ((recs ++ [(⟨nm, q⟩ : Subnet)]).map encodeLine), .added, ?_, ?_⟩
      · simp [add_subnet, hq, pyBind_ok, reservedCheck_eq, hc,
          conflicts_encode cand recs h hp, List.map_append]
      · have hgood2 : goodRecs (recs ++ [(⟨nm, q⟩ : Subnet)]) := by
          intro r hr
          rcases List.mem_append.mp hr with hr | hr
          · exact h r hr
          · simp only [List.mem_singleton] at hr
            rw [hr]
            exact hw
        rw [delete_encode nm _ hgood2, List.filter_append, hkeep]
        simp

/-- C9 witness: store `A 10.0.0.0/24`; add `B 10.0.0.128/25` (a genuine
range conflict, confirmed) and delete `B` again. -/
theorem c9_witness :
    ∃ (file2 : Option (List (List Char))) (outcome : AddOutcome),
      add_subnet ("B".data) ("10.0.0.128/25".data) true
          (some ([⟨"A".data, "10.0.0.0/24".data⟩].map encodeLine)) =
        .ok (file2, outcome) ∧
      delete_subnet ("B".data) file2 =
        .ok ([⟨"A".data, "10.0.0.0/24".data⟩].map encodeLine) :=
  c9_add_delete_roundtrip ("B".data) ("10.0.0.128/25".data) _ ⟨167772288, 25⟩
    (by decide) (by decide) (by decide) (by decide) (by decide)


/-- Function `afterDigits n` succeeds exactly on a digit block of length `n`. -/
theorem afterDigits_eq_some {n : Nat} {l r : List Char} :
    afterDigits n l = some r ↔
      ∃ a, a.length = n ∧ a.all isDigit = true ∧ l = a ++ r := by
  induction n generalizing l with
  | zero =>
      simp only [afterDigits, Option.some.injEq]
      constructor
      · rintro rfl
        exact ⟨[], rfl, rfl, rfl⟩
      · rintro ⟨a, ha, -, rfl⟩
        rw [List.length_eq_zero.mp ha]
        rfl
  | succ n ih =>
      cases l with
      | nil =>
          simp only [afterDigits]
          constructor
          · intro h
            exact absurd h (by simp)
          · rintro ⟨a, ha, -, hl⟩
            have hlen := congrArg List.length hl
            simp [ha] at hlen
            omega
      | cons c t =>
          simp only [afterDigits]
          by_cases hd : isDigit c = true
          · rw [if_pos hd, ih]
            constructor
            · rintro ⟨a, ha, hall, rfl⟩
              exact ⟨c :: a, by simp [ha], by simp [hd, hall], rfl⟩
            · rintro ⟨a, ha, hall, hl⟩
              cases a with
              | nil => simp at ha
              | cons x a2 =>
                  rw [List.cons_append] at hl
                  injection hl with h1 h2
                  subst h1
                  simp only [List.all_cons, Bool.and_eq_true] at hall
                  exact ⟨a2, by simpa using ha, hall.2, h2⟩
          · rw [if_neg hd]
            constructor
            · intro h
              exact absurd h (by simp)
            · rintro ⟨a, ha, hall, hl⟩
              cases a with
              | nil => simp at ha
              | cons x a2 =>
                  rw [List.cons_append] at hl
                  injection hl with h1 h2
                  subst h1
                  simp only [List.all_cons, Bool.and_eq_true] at hall
                  exact absurd hall.1 hd

/-- Eliminator shape used inside `tryCounts`. -/
theorem optElim_eq_true {o : Option (List Char)} {k : List Char → Bool} :
    o.elim false k = true ↔ ∃ r, o = some r ∧ k r = true := by
  cases o <;> simp

/-- A bounded digit atom matches iff some digit block with an allowed length
can be split off with the rest of the pattern matching after it. -/
theorem tryCounts_eq_true {counts : List Nat} {l : List Char} {k : List Char → Bool} :
    tryCounts counts l k = true ↔
      ∃ a r, a.length ∈ counts ∧ a.all isDigit = true ∧ l = a ++ r ∧ k r = true := by
  simp only [tryCounts, List.any_eq_true, optElim_eq_true, afterDigits_eq_some]
  constructor
  · rintro ⟨n, hn, r, ⟨a, ha, hall, rfl⟩, hk⟩
    subst ha
    exact ⟨a, r, hn, hall, rfl, hk⟩
  · rintro ⟨a, r, hmem, hall, rfl, hk⟩
    exact ⟨a.length, hmem, r, ⟨a, rfl, hall, rfl⟩, hk⟩

/-- A literal atom matches iff the input starts with that character and the
rest of the pattern matches after it. -/
theorem litThen_eq_true {c : Char} {l : List Char} {k : List Char → Bool} :
    litThen c l k = true ↔ ∃ r, l = c :: r ∧ k r = true := by
  cases l with
  | nil => simp [litThen]
  | cons x t =>
      simp only [litThen, Bool.and_eq_true, decide_eq_true_eq]
      constructor
      · rintro ⟨rfl, hk⟩
        exact ⟨t, rfl, hk⟩
      · rintro ⟨r, hl, hk⟩
        injection hl with h1 h2
        subst h1
        subst h2
        exact ⟨rfl, hk⟩

/-- Introduction form of `tryCounts_eq_true`. -/
theorem tryCounts_intro {counts : List Nat} {a r : List Char} {k : List Char → Bool}
    (hmem : a.length ∈ counts) (hall : a.all isDigit = true) (hk : k r = true) :
    tryCounts counts (a ++ r) k = true :=
  tryCounts_eq_true.mpr ⟨a, r, hmem, hall, rfl, hk⟩

/-- Introduction form of `litThen_eq_true`. -/
theorem litThen_intro {c : Char} {r : List Char} {k : List Char → Bool}
    (hk : k r = true) : litThen c (c :: r) k = true :=
  litThen_eq_true.mpr ⟨r, rfl, hk⟩

/-- Allowed lengths of an octet group. -/
theorem mem_counts3 {n : Nat} : n ∈ ([3, 2, 1] : List Nat) ↔ 1 ≤ n ∧ n ≤ 3 := by
  simp only [List.mem_cons, List.mem_singleton, List.not_mem_nil, or_false]
  omega

/-- Allowed lengths of the group after the slash. -/
theorem mem_counts2 {n : Nat} : n ∈ ([2, 1] : List Nat) ↔ 1 ≤ n ∧ n ≤ 2 := by
  simp only [List.mem_cons, List.mem_singleton, List.not_mem_nil, or_false]
  omega

/-- The anchored matcher accepts exactly the inputs that begin with a string
of the documented shape. -/
theorem matchShapeAt_eq_true {l : List Char} :
    matchShapeAt l = true ↔ ∃ m r, l = m ++ r ∧ shapeMatch m := by
  simp only [matchShapeAt, tryCounts_eq_true, litThen_eq_true]
  constructor
  · rintro ⟨a, r1, hma, ha, rfl, r2, rfl, b, r3, hmb, hb, rfl, r4, rfl, c, r5, hmc, hc,
      rfl, r6, rfl, d, r7, hmd, hd, rfl, r8, rfl, e, r9, hme, he, rfl, -⟩
    refine ⟨a ++ '.' :: (b ++ '.' :: (c ++ '.' :: (d ++ '/' :: e))), r9, by simp, ?_⟩
    exact ⟨a, b, c, d, e, ⟨ha, mem_counts3.mp hma⟩, ⟨hb, mem_counts3.mp hmb⟩,
      ⟨hc, mem_counts3.mp hmc⟩, ⟨hd, mem_counts3.mp hmd⟩, ⟨he, mem_counts2.mp hme⟩, rfl⟩
  · rintro ⟨m, r, rfl, a, b, c, d, e, ⟨ha1, ha2, ha3⟩, ⟨hb1, hb2, hb3⟩, ⟨hc1, hc2, hc3⟩,
      ⟨hd1, hd2, hd3⟩, ⟨he1, he2, he3⟩, rfl⟩
    refine ⟨a, '.' :: (b ++ '.' :: (c ++ '.' :: (d ++ '/' :: (e ++ r)))),
      mem_counts3.mpr ⟨ha2, ha3⟩, ha1, by simp, ?_⟩
    refine ⟨b ++ '.' :: (c ++ '.' :: (d ++ '/' :: (e ++ r))), rfl, ?_⟩
    refine ⟨b, '.' :: (c ++ '.' :: (d ++ '/' :: (e ++ r))),
      mem_counts3.mpr ⟨hb2, hb3⟩, hb1, rfl, ?_⟩
    refine ⟨c ++ '.' :: (d ++ '/' :: (e ++ r)), rfl, ?_⟩
    refine ⟨c, '.' :: (d ++ '/' :: (e ++ r)), mem_counts3.mpr ⟨hc2, hc3⟩, hc1, rfl, ?_⟩
    refine ⟨d ++ '/' :: (e ++ r), rfl, ?_⟩
    refine ⟨d, '/' :: (e ++ r), mem_counts3.mpr ⟨hd2, hd3⟩, hd1, rfl, ?_⟩
    refine ⟨e ++ r, rfl, ?_⟩
    exact ⟨e, r, mem_counts2.mpr ⟨he2, he3⟩, he1, rfl, trivial⟩

/-- Search semantics: `re.search` with the shape pattern accepts exactly the strings containing
a substring of the documented shape. -/
theorem check_address_format_eq_true {s : List Char} :
    check_address_format s = true ↔
      ∃ pre m post, s = pre ++ (m ++ post) ∧ shapeMatch m := by
  simp only [check_address_format, List.any_eq_true]
  constructor
  · rintro ⟨t, ht, hm⟩
    rw [matchShapeAt_eq_true] at hm
    obtain ⟨m, r, rfl, hsm⟩ := hm
    obtain ⟨pre, hpre⟩ := (List.mem_tails _ _).mp ht
    exact ⟨pre, m, r, by rw [← hpre], hsm⟩
  · rintro ⟨pre, m, post, rfl, hsm⟩
    refine ⟨m ++ post, ?_, matchShapeAt_eq_true.mpr ⟨m, post, rfl, hsm⟩⟩
    rw [List.mem_tails]
    exact ⟨pre, rfl⟩

/-- Since the separator is not a digit, a chomped group is exactly a maximal
digit run followed by that separator. -/
theorem chompGroup_eq_some {k : Nat} {sep : Char} {l r : List Char}
    (hsep : isDigit sep = false) :
    chompGroup k sep l = some r ↔
      ∃ a, a.all isDigit = true ∧ 1 ≤ a.length ∧ a.length ≤ k ∧ l = a ++ sep :: r := by
  constructor
  · intro h
    rw [chompGroup] at h
    by_cases hc : 1 ≤ (l.takeWhile isDigit).length ∧ (l.takeWhile isDigit).length ≤ k ∧
        l.dropWhile isDigit ≠ [] ∧ (l.dropWhile isDigit).headD sep = sep
    · rw [if_pos hc] at h
      injection h with h2
      obtain ⟨hl1, hl2, hne, hhead⟩ := hc
      cases hd : l.dropWhile isDigit with
      | nil => exact absurd hd hne
      | cons c t =>
          rw [hd] at hhead h2
          simp only [List.headD_cons] at hhead
          simp only [List.tail_cons] at h2
          refine ⟨l.takeWhile isDigit,
            List.all_eq_true.mpr fun x hx => List.mem_takeWhile_imp hx, hl1, hl2, ?_⟩
          conv_lhs => rw [← List.takeWhile_append_dropWhile (p := isDigit) (l := l)]
          rw [hd, hhead, h2]
    · rw [if_neg hc] at h
      cases h
  · rintro ⟨a, hall, h1, h2, rfl⟩
    have hmem : ∀ x ∈ a, isDigit x = true := fun x hx => List.all_eq_true.mp hall x hx
    have hta : ((a ++ sep :: r).takeWhile isDigit) = a := takeWhile_append_not hmem hsep
    have hda : ((a ++ sep :: r).dropWhile isDigit) = sep :: r := dropWhile_append_not hmem hsep
    rw [chompGroup, hta, hda, if_pos ⟨h1, h2, by simp, by simp⟩]
    rfl

/-- The executable whole-string matcher decides the claim-side shape
predicate. -/
theorem fullShape_eq_true {m : List Char} : fullShape m = true ↔ shapeMatch m := by
  have hdot : isDigit '.' = false := rfl
  have hslash : isDigit '/' = false := rfl
  constructor
  · intro h
    rw [fullShape] at h
    cases h1 : chompGroup 3 '.' m with
    | none => rw [h1] at h; simp at h
    | some r1 =>
        rw [h1] at h
        simp only [Option.some_bind] at h
        cases h2 : chompGroup 3 '.' r1 with
        | none => rw [h2] at h; simp at h
        | some r2 =>
            rw [h2] at h
            simp only [Option.some_bind] at h
            cases h3 : chompGroup 3 '.' r2 with
            | none => rw [h3] at h; simp at h
            | some r3 =>
                rw [h3] at h
                simp only [Option.some_bind] at h
                cases h4 : chompGroup 3 '/' r3 with
                | none => rw [h4] at h; simp at h
                | some e =>
                    rw [h4] at h
                    simp only [decide_eq_true_eq] at h
                    obtain ⟨a, hall, ha1, ha2, hm⟩ := (chompGroup_eq_some hdot).mp h1
                    obtain ⟨b, hball, hb1, hb2, hr1⟩ := (chompGroup_eq_some hdot).mp h2
                    obtain ⟨c, hcall, hc1, hc2, hr2⟩ := (chompGroup_eq_some hdot).mp h3
                    obtain ⟨d, hdall, hd1, hd2, hr3⟩ := (chompGroup_eq_some hslash).mp h4
                    exact ⟨a, b, c, d, e, ⟨hall, ha1, ha2⟩, ⟨hball, hb1, hb2⟩,
                      ⟨hcall, hc1, hc2⟩, ⟨hdall, hd1, hd2⟩, h,
                      by rw [hm, hr1, hr2, hr3]⟩
  · rintro ⟨a, b, c, d, e, ⟨ha1, ha2, ha3⟩, ⟨hb1, hb2, hb3⟩, ⟨hc1, hc2, hc3⟩,
      ⟨hd1, hd2, hd3⟩, ⟨he1, he2, he3⟩, rfl⟩
    have g1 : chompGroup 3 '.' (a ++ '.' :: (b ++ '.' :: (c ++ '.' :: (d ++ '/' :: e)))) =
        some (b ++ '.' :: (c ++ '.' :: (d ++ '/' :: e))) :=
      (chompGroup_eq_some hdot).mpr ⟨a, ha1, ha2, ha3, rfl⟩
    have g2 : chompGroup 3 '.' (b ++ '.' :: (c ++ '.' :: (d ++ '/' :: e))) =
        some (c ++ '.' :: (d ++ '/' :: e)) :=
      (chompGroup_eq_some hdot).mpr ⟨b, hb1, hb2, hb3, rfl⟩
    have g3 : chompGroup 3 '.' (c ++ '.' :: (d ++ '/' :: e)) = some (d ++ '/' :: e) :=
      (chompGroup_eq_some hdot).mpr ⟨c, hc1, hc2, hc3, rfl⟩
    have g4 : chompGroup 3 '/' (d ++ '/' :: e) = some e :=
      (chompGroup_eq_some hslash).mpr ⟨d, hd1, hd2, hd3, rfl⟩
    rw [fullShape, g1]
    simp only [Option.some_bind]
    rw [g2]
    simp only [Option.some_bind]
    rw [g3]
    simp only [Option.some_bind]
    rw [g4]
    simp [he1, he2, he3]

/-- C7 counterexample: on `10.0.0.0/245` the code returns true — `re.search`
finds the matching substring `10.0.0.0/24` — although the whole string does
not match the documented pattern (its final digit group has three digits),
so "true iff the string matches the pattern" fails. -/
theorem c7_counterexample_search_vs_whole_string :
    ¬ (check_address_format ("10.0.0.0/245".data) = true ↔
        shapeMatch ("10.0.0.0/245".data)) := by
  intro hiff
  have h1 : check_address_format ("10.0.0.0/245".data) = true := by decide
  have h2 : fullShape ("10.0.0.0/245".data) = false := by decide
  have h3 := fullShape_eq_true.mpr (hiff.mp h1)
  rw [h2] at h3
  exact absurd h3 Bool.false_ne_true

/-- C7 amended: `check_address_format` returns true iff SOME SUBSTRING of the
input matches the pattern `\d{1,3}\.\d{1,3}\.\d{1,3}\.\d{1,3}/\d{1,2}` (the
code uses `re.search`, not a whole-string match); in particular a string with
no slash-prefix part, such as `10.0.0.0`, is rejected. -/
theorem c7_amended_search_semantics :
    (∀ s : List Char, check_address_format s = true ↔
      ∃ pre m post, s = pre ++ (m ++ post) ∧ shapeMatch m) ∧
    check_address_format ("10.0.0.0".data) = false :=
  ⟨fun _ => check_address_format_eq_true, by decide⟩
